import Mathlib

/-!
Shallow embedding of the Time-management backend (src/backend/server.py), a
FastAPI application over MongoDB.  Documents are modelled as association
lists from string keys to BSON-like values, the five Mongo collections as
lists of documents, and each HTTP handler as a function from an application
state (plus the request data and the authenticated caller's token) to a
response together with the successor state.  Mutating handlers return the
successor state even when the response is an error, mirroring the fact that
database writes performed before an exception persist.

Machine-generated values (uuid4 ids, current timestamps) are passed in as
explicit parameters.  Python floats are modelled as rationals.  External
collaborators (bcrypt via passlib, JWT encoding via jose, e-mail dispatch
via resend) are not repository code; they are modelled abstractly: password
hashing as an injective tagging function, a bearer token as its decoded
payload (subject id and role), and e-mail dispatch as a no-op (the server
treats it as best-effort and it never affects state or responses).
-/

namespace TM

/-- A primitive JSON/BSON value as stored by this system. -/
inductive Prim where
  | pNull
  | pBool (b : Bool)
  | pNum (q : ℚ)
  | pStr (s : String)
deriving DecidableEq

/-- A flat sub-document (string keys to primitive values), e.g. one
timesheet entry or one uploaded-document record. -/
abbrev FlatDoc := List (String × Prim)

/-- A stored field value: a primitive, an array of primitives, or an array
of flat sub-documents.  This covers every value the handlers of server.py
read or write (the documents this system stores nest at most two levels). -/
inductive Value where
  | prim (p : Prim)
  | arrS (l : List Prim)
  | arrD (l : List FlatDoc)
deriving DecidableEq

/-- A Mongo document: an association list of fields, in insertion order. -/
abbrev Doc := List (String × Value)

/-- First value bound to key k, like Python dict lookup. -/
def Doc.get (d : Doc) (k : String) : Option Value :=
  match d with
  | [] => none
  | (k1, v) :: rest => if k1 = k then some v else Doc.get rest k

/-- Field assignment: replace the value in place, or append a new field
(the behaviour of a Mongo dollar-set on one key). -/
def Doc.set (d : Doc) (k : String) (v : Value) : Doc :=
  match d with
  | [] => [(k, v)]
  | (k1, v1) :: rest => if k1 = k then (k1, v) :: rest else (k1, v1) :: Doc.set rest k v

/-- Apply a dollar-set update document field by field. -/
def Doc.setMany (d : Doc) (us : List (String × Value)) : Doc :=
  match us with
  | [] => d
  | (k, v) :: rest => Doc.setMany (Doc.set d k v) rest

/-- String-typed field read. -/
def Doc.getStr (d : Doc) (k : String) : Option String :=
  match Doc.get d k with
  | some (.prim (.pStr s)) => some s
  | _ => none

/-- Remove a key, as in the dict comprehensions that strip "password". -/
def Doc.drop (d : Doc) (k : String) : Doc :=
  d.filter (fun kv => kv.1 ≠ k)

/-- Lookup in a flat sub-document. -/
def FlatDoc.get (d : FlatDoc) (k : String) : Option Prim :=
  match d with
  | [] => none
  | (k1, v) :: rest => if k1 = k then some v else FlatDoc.get rest k

/-- Mongo equality filter on a string field: matches exactly the documents
whose field k is the string v (missing or non-string fields never match). -/
def fieldIs (d : Doc) (k v : String) : Bool :=
  match Doc.getStr d k with
  | some s => s == v
  | none => false

/-- find_one with a single string-equality filter: first matching document. -/
def findBy (docs : List Doc) (k v : String) : Option Doc :=
  docs.find? (fun d => fieldIs d k v)

/-- The matched/modified counters of a Mongo update_one result. -/
structure UpdateResult where
  matched : Nat
  modified : Nat
deriving DecidableEq

/-- update_one: rewrite the first document satisfying the filter; modified
is 0 when the rewritten document is unchanged (Mongo compares values). -/
def updateFirst (docs : List Doc) (p : Doc → Bool) (f : Doc → Doc) :
    List Doc × UpdateResult :=
  match docs with
  | [] => ([], ⟨0, 0⟩)
  | d :: rest =>
    if p d then
      (f d :: rest, ⟨1, if f d = d then 0 else 1⟩)
    else
      let r := updateFirst rest p f
      (d :: r.1, r.2)

/-- The five Mongo collections the verified handlers touch. -/
structure AppState where
  users : List Doc
  projects : List Doc
  timesheets : List Doc
  leaves : List Doc
  invoices : List Doc

/-- An HTTPException: status code and detail message. -/
structure Err where
  code : Nat
  detail : String
deriving DecidableEq

/-- A decoded bearer token: the payload create_access_token signs
(subject id and role).  jose's encode/decode round-trip is modelled by
passing the payload itself. -/
structure Token where
  sub : String
  role : String
deriving DecidableEq

/-- Models passlib bcrypt hashing abstractly (external library): an
injective tagging function, so verification is hash-equality. -/
def pwHash (p : String) : String := "bcrypt$" ++ p

/-- verify_password from server.py, over the abstract hash. -/
def verifyPassword (plain hashed : String) : Bool := pwHash plain == hashed

/-- Python truthiness of a primitive. -/
def pyTruthy : Prim → Bool
  | .pNull => false
  | .pBool b => b
  | .pNum q => q ≠ 0
  | .pStr s => s ≠ ""

/-- Truthiness of a stored value (arrays are truthy when non-empty). -/
def valueTruthy : Value → Bool
  | .prim p => pyTruthy p
  | .arrS l => l ≠ []
  | .arrD l => l ≠ []

/-- An optional comment as stored by the review handlers. -/
def optVal : Option String → Value
  | none => .prim .pNull
  | some s => .prim (.pStr s)

/-- get_current_user: resolve the token's subject in the users collection;
absent subject is a 401 (an invalid or expired token signature is a 401
before this point and is outside the model, which passes decoded tokens). -/
def getCurrentUser (st : AppState) (tok : Token) : Except Err Doc :=
  match findBy st.users "id" tok.sub with
  | some u => .ok u
  | none => .error ⟨401, "User not found"⟩

/-- require_role: resolve the caller, then check its stored role against
the allow-list (a missing role field would raise, hence 500). -/
def requireRole (roles : List String) (st : AppState) (tok : Token) : Except Err Doc :=
  match getCurrentUser st tok with
  | .error e => .error e
  | .ok u =>
    match Doc.getStr u "role" with
    | some r => if roles.contains r then .ok u else .error ⟨403, "Insufficient permissions"⟩
    | none => .error ⟨500, "Internal Server Error"⟩

-- ======================= AUTH ROUTES =======================

/-- The User document register builds (pydantic model defaults, generated
id and timestamp passed in), as serialized without the password. -/
def newUserDoc (email name role newId createdAt : String) : Doc :=
  [("id", .prim (.pStr newId)), ("email", .prim (.pStr email)),
   ("name", .prim (.pStr name)), ("role", .prim (.pStr role)),
   ("date_of_joining", .prim .pNull), ("date_of_birth", .prim .pNull),
   ("designation", .prim .pNull), ("practice", .prim .pNull),
   ("reporting_manager_id", .prim .pNull),
   ("leave_balance", .prim (.pNum 20)), ("documents", .arrD []),
   ("created_at", .prim (.pStr createdAt))]

/-- POST /auth/register.  No authentication dependency; the role string of
the request body is stored as given.  newId and createdAt stand for the
generated uuid4 and the current timestamp.  Returns the token and the user
document as serialized (without password); the stored document additionally
carries the password hash. -/
def register (st : AppState) (email password name role : String)
    (newId createdAt : String) : Except Err (Token × Doc × AppState) :=
  match findBy st.users "email" email with
  | some _ => .error ⟨400, "Email already registered"⟩
  | none =>
    let user := newUserDoc email name role newId createdAt
    let stored := user ++ [("password", .prim (.pStr (pwHash password)))]
    .ok (⟨newId, role⟩, user, { st with users := st.users ++ [stored] })

/-- POST /auth/login.  A missing user and a failed password check raise the
same 401; the password field is only read when the user was found. -/
def login (st : AppState) (email password : String) : Except Err (Token × Doc) :=
  match findBy st.users "email" email with
  | none => .error ⟨401, "Invalid email or password"⟩
  | some u =>
    match Doc.getStr u "password" with
    | none => .error ⟨500, "Internal Server Error"⟩
    | some h =>
      if verifyPassword password h then
        match Doc.getStr u "id", Doc.getStr u "role" with
        | some uid, some role => .ok (⟨uid, role⟩, Doc.drop u "password")
        | _, _ => .error ⟨500, "Internal Server Error"⟩
      else .error ⟨401, "Invalid email or password"⟩

-- ======================= USER ROUTES =======================

/-- The password-hashing rewrite update_user performs on its raw payload
before any role filtering; a non-string password would make passlib raise
(500). -/
def hashPwField : List (String × Value) → Except Err (List (String × Value))
  | [] => .ok []
  | (k, v) :: rest =>
    if k = "password" then
      match v with
      | .prim (.pStr p) =>
        (hashPwField rest).map (fun r => ("password", Value.prim (.pStr (pwHash p))) :: r)
      | _ => .error ⟨500, "Internal Server Error"⟩
    else (hashPwField rest).map (fun r => (k, v) :: r)

/-- PUT /users/user_id.  Managers get their payload filtered down to the
leave_balance key; an empty resulting dollar-set is a Mongo write error
(500); 404 only when the update neither matched nor modified. -/
def updateUser (st : AppState) (tok : Token) (userId : String)
    (updates : List (String × Value)) : Except Err (Option Doc) × AppState :=
  match requireRole ["admin", "manager"] st tok with
  | .error e => (.error e, st)
  | .ok cur =>
    match hashPwField updates with
    | .error e => (.error e, st)
    | .ok ups1 =>
      match Doc.getStr cur "role" with
      | none => (.error ⟨500, "Internal Server Error"⟩, st)
      | some r =>
        let ups2 := if r = "manager" then ups1.filter (fun kv => kv.1 == "leave_balance") else ups1
        if ups2 = [] then (.error ⟨500, "Internal Server Error"⟩, st)
        else
          let res := updateFirst st.users (fun d => fieldIs d "id" userId)
            (fun d => Doc.setMany d ups2)
          let st2 : AppState := { st with users := res.1 }
          if res.2.modified = 0 && res.2.matched = 0 then
            (.error ⟨404, "User not found"⟩, st2)
          else
            (.ok ((findBy st2.users "id" userId).map (fun d => Doc.drop d "password")), st2)

-- ======================= PROJECT / INVOICE ROUTES =======================

/-- PUT /projects/project_id.  Note the handler 404s whenever
modified_count is zero, which includes a no-op update of an existing
project; an empty dollar-set is a Mongo write error (500). -/
def updateProject (st : AppState) (tok : Token) (projectId : String)
    (updates : List (String × Value)) : Except Err (Option Doc) × AppState :=
  match requireRole ["admin", "manager"] st tok with
  | .error e => (.error e, st)
  | .ok _ =>
    if updates = [] then (.error ⟨500, "Internal Server Error"⟩, st)
    else
      let res := updateFirst st.projects (fun d => fieldIs d "id" projectId)
        (fun d => Doc.setMany d updates)
      let st2 : AppState := { st with projects := res.1 }
      if res.2.modified = 0 then (.error ⟨404, "Project not found"⟩, st2)
      else (.ok (findBy st2.projects "id" projectId), st2)

/-- PUT /invoices/invoice_id.  Same modified_count-based 404 as
updateProject. -/
def updateInvoice (st : AppState) (tok : Token) (invoiceId : String)
    (updates : List (String × Value)) : Except Err (Option Doc) × AppState :=
  match requireRole ["admin", "manager"] st tok with
  | .error e => (.error e, st)
  | .ok _ =>
    if updates = [] then (.error ⟨500, "Internal Server Error"⟩, st)
    else
      let res := updateFirst st.invoices (fun d => fieldIs d "id" invoiceId)
        (fun d => Doc.setMany d updates)
      let st2 : AppState := { st with invoices := res.1 }
      if res.2.modified = 0 then (.error ⟨404, "Invoice not found"⟩, st2)
      else (.ok (findBy st2.invoices "id" invoiceId), st2)

-- ======================= TIMESHEET ROUTES =======================

/-- The unconditional update_one + re-fetch tail of update_timesheet; an
empty dollar-set is a Mongo write error (500). -/
def applyTimesheetUpdate (st : AppState) (tsId : String)
    (updates : List (String × Value)) : Except Err (Option Doc) × AppState :=
  if updates = [] then (.error ⟨500, "Internal Server Error"⟩, st)
  else
    let res := updateFirst st.timesheets (fun d => fieldIs d "id" tsId)
      (fun d => Doc.setMany d updates)
    let st2 : AppState := { st with timesheets := res.1 }
    (.ok (findBy st2.timesheets "id" tsId), st2)

/-- PUT /timesheets/timesheet_id.  Any authenticated caller may edit a
draft timesheet (ownership is not checked); a non-draft one only by
admin/manager (the role is only read when the status is not draft, per
Python short-circuiting).  The dollar-set applies the raw payload
verbatim. -/
def updateTimesheet (st : AppState) (tok : Token) (tsId : String)
    (updates : List (String × Value)) : Except Err (Option Doc) × AppState :=
  match getCurrentUser st tok with
  | .error e => (.error e, st)
  | .ok cur =>
    match findBy st.timesheets "id" tsId with
    | none => (.error ⟨404, "Timesheet not found"⟩, st)
    | some ts =>
      match Doc.get ts "status" with
      | none => (.error ⟨500, "Internal Server Error"⟩, st)
      | some stat =>
        if stat = .prim (.pStr "draft") then applyTimesheetUpdate st tsId updates
        else
          match Doc.getStr cur "role" with
          | none => (.error ⟨500, "Internal Server Error"⟩, st)
          | some r =>
            if ["admin", "manager"].contains r then applyTimesheetUpdate st tsId updates
            else (.error ⟨403, "Cannot edit submitted timesheet"⟩, st)

/-- The dollar-set payload of submit_timesheet. -/
def submitUpd (now : String) : List (String × Value) :=
  [("status", .prim (.pStr "submitted")), ("submitted_at", .prim (.pStr now))]

/-- The dollar-set payload of the timesheet/leave approve handlers. -/
def approveUpd (curId now : String) (comments : Option String) : List (String × Value) :=
  [("status", .prim (.pStr "approved")), ("reviewed_by", .prim (.pStr curId)),
   ("reviewed_at", .prim (.pStr now)), ("comments", optVal comments)]

/-- The dollar-set payload of the reject handlers. -/
def rejectUpd (curId now comments : String) : List (String × Value) :=
  [("status", .prim (.pStr "rejected")), ("reviewed_by", .prim (.pStr curId)),
   ("reviewed_at", .prim (.pStr now)), ("comments", .prim (.pStr comments))]

/-- POST /timesheets/timesheet_id/submit.  The filter requires the caller
to own the timesheet but places no condition on its current status; 404
exactly when the update modified nothing. -/
def submitTimesheet (st : AppState) (tok : Token) (tsId : String)
    (now : String) : Except Err (Option Doc) × AppState :=
  match getCurrentUser st tok with
  | .error e => (.error e, st)
  | .ok cur =>
    match Doc.getStr cur "id" with
    | none => (.error ⟨500, "Internal Server Error"⟩, st)
    | some curId =>
      let res := updateFirst st.timesheets
        (fun d => fieldIs d "id" tsId && fieldIs d "user_id" curId)
        (fun d => Doc.setMany d (submitUpd now))
      let st2 : AppState := { st with timesheets := res.1 }
      if res.2.modified = 0 then (.error ⟨404, "Timesheet not found"⟩, st2)
      else (.ok (findBy st2.timesheets "id" tsId), st2)

/-- POST /timesheets/timesheet_id/approve.  Requires admin or manager and
an existing timesheet, but places no condition on its current status.  The
e-mail notification is best-effort and affects neither state nor response;
it is not modelled. -/
def approveTimesheet (st : AppState) (tok : Token) (tsId : String)
    (comments : Option String) (now : String) : Except Err (Option Doc) × AppState :=
  match requireRole ["admin", "manager"] st tok with
  | .error e => (.error e, st)
  | .ok cur =>
    match findBy st.timesheets "id" tsId with
    | none => (.error ⟨404, "Timesheet not found"⟩, st)
    | some _ =>
      match Doc.getStr cur "id" with
      | none => (.error ⟨500, "Internal Server Error"⟩, st)
      | some curId =>
        let res := updateFirst st.timesheets (fun d => fieldIs d "id" tsId)
          (fun d => Doc.setMany d (approveUpd curId now comments))
        let st2 : AppState := { st with timesheets := res.1 }
        (.ok (findBy st2.timesheets "id" tsId), st2)

/-- POST /timesheets/timesheet_id/reject.  Mirror of approveTimesheet with
status rejected and a mandatory comment. -/
def rejectTimesheet (st : AppState) (tok : Token) (tsId : String)
    (comments : String) (now : String) : Except Err (Option Doc) × AppState :=
  match requireRole ["admin", "manager"] st tok with
  | .error e => (.error e, st)
  | .ok cur =>
    match findBy st.timesheets "id" tsId with
    | none => (.error ⟨404, "Timesheet not found"⟩, st)
    | some _ =>
      match Doc.getStr cur "id" with
      | none => (.error ⟨500, "Internal Server Error"⟩, st)
      | some curId =>
        let res := updateFirst st.timesheets (fun d => fieldIs d "id" tsId)
          (fun d => Doc.setMany d (rejectUpd curId now comments))
        let st2 : AppState := { st with timesheets := res.1 }
        (.ok (findBy st2.timesheets "id" tsId), st2)

-- ======================= LEAVE ROUTES =======================

/-- The Leave document create_leave inserts (the model defaults of the
Leave pydantic model, with the generated id and timestamp passed in). -/
def newLeaveDoc (uid startDate endDate : String) (days : ℚ)
    (reason newId createdAt : String) : Doc :=
  [("id", .prim (.pStr newId)), ("user_id", .prim (.pStr uid)),
   ("start_date", .prim (.pStr startDate)), ("end_date", .prim (.pStr endDate)),
   ("days", .prim (.pNum days)), ("reason", .prim (.pStr reason)),
   ("status", .prim (.pStr "pending")), ("reviewed_by", .prim .pNull),
   ("reviewed_at", .prim .pNull), ("comments", .prim .pNull),
   ("created_at", .prim (.pStr createdAt))]

/-- POST /leaves.  The caller's current balance gates creation; on success
a pending leave is inserted and no balance is touched. -/
def createLeave (st : AppState) (tok : Token) (startDate endDate : String)
    (days : ℚ) (reason : String) (newId createdAt : String) :
    Except Err Doc × AppState :=
  match getCurrentUser st tok with
  | .error e => (.error e, st)
  | .ok cur =>
    match Doc.getStr cur "id" with
    | none => (.error ⟨500, "Internal Server Error"⟩, st)
    | some curId =>
      match findBy st.users "id" curId with
      | none => (.error ⟨500, "Internal Server Error"⟩, st)
      | some u =>
        match Doc.get u "leave_balance" with
        | some (.prim (.pNum bal)) =>
          if bal < days then (.error ⟨400, "Insufficient leave balance"⟩, st)
          else
            let leave := newLeaveDoc curId startDate endDate days reason newId createdAt
            let st2 : AppState := { st with leaves := st.leaves ++ [leave] }
            (.ok leave, st2)
        | _ => (.error ⟨500, "Internal Server Error"⟩, st)

/-- The Mongo dollar-inc of a numeric field: add to a numeric value, create
the field when absent.  (A dollar-inc against a stored non-numeric value is
a Mongo write error; no claim reaches that corner and the theorems below
always hypothesise a numeric balance.) -/
def incNum (d : Doc) (k : String) (delta : ℚ) : Doc :=
  match Doc.get d k with
  | some (.prim (.pNum q)) => Doc.set d k (.prim (.pNum (q + delta)))
  | none => Doc.set d k (.prim (.pNum delta))
  | some _ => d

/-- POST /leaves/leave_id/approve.  Deducts the requester's balance with an
unconditional dollar-inc before marking the leave approved: neither the
leave's current status nor the remaining balance is re-checked.  500 when
the status update modified nothing (the deduction still stands).  E-mail
dispatch is not modelled. -/
def approveLeave (st : AppState) (tok : Token) (leaveId : String)
    (comments : Option String) (now : String) : Except Err Doc × AppState :=
  match requireRole ["admin", "manager"] st tok with
  | .error e => (.error e, st)
  | .ok cur =>
    match findBy st.leaves "id" leaveId with
    | none => (.error ⟨404, "Leave not found"⟩, st)
    | some leave =>
      match Doc.getStr leave "user_id", Doc.get leave "days" with
      | some uid, some (.prim (.pNum days)) =>
        let usersRes := updateFirst st.users (fun d => fieldIs d "id" uid)
          (fun d => incNum d "leave_balance" (-days))
        let st1 : AppState := { st with users := usersRes.1 }
        match Doc.getStr cur "id" with
        | none => (.error ⟨500, "Internal Server Error"⟩, st1)
        | some curId =>
          let res := updateFirst st1.leaves (fun d => fieldIs d "id" leaveId)
            (fun d => Doc.setMany d (approveUpd curId now comments))
          let st2 : AppState := { st1 with leaves := res.1 }
          if res.2.modified = 0 then (.error ⟨500, "Failed to update leave"⟩, st2)
          else
            match findBy st2.leaves "id" leaveId with
            | some updated => (.ok updated, st2)
            | none => (.error ⟨500, "Internal Server Error"⟩, st2)
      | _, _ => (.error ⟨500, "Failed to approve leave"⟩, st)

-- ======================= REPORTS =======================

/-- Digit run to a natural number; none when a non-digit appears. -/
def digitsToNat (cs : List Char) : Option Nat :=
  cs.foldl
    (fun acc c => match acc with
      | none => none
      | some n => if c.isDigit then some (n * 10 + (c.toNat - 48)) else none)
    (some 0)

/-- Python float() on a string, for the decimal numerals this system stores
in timesheet entries: optional sign, then digits with an optional fractional
part ("40", "-7.5", "1.", ".5").  Anything else (letters, empty string,
exponent forms) raises ValueError, modelled as none.  float() is Python
stdlib, not repository code; the handlers only rely on numerals parsing and
on non-numerals raising. -/
def parseFloat (s : String) : Option ℚ :=
  let cs := s.toList
  let signed : ℚ × List Char :=
    match cs with
    | '-' :: rest => (-1, rest)
    | '+' :: rest => (1, rest)
    | _ => (1, cs)
  let intPart := signed.2.takeWhile Char.isDigit
  let rest := signed.2.dropWhile Char.isDigit
  match rest with
  | [] =>
    if intPart.isEmpty then none
    else (digitsToNat intPart).map (fun n => signed.1 * n)
  | '.' :: frac =>
    if intPart.isEmpty && frac.isEmpty then none
    else
      match digitsToNat intPart, digitsToNat frac with
      | some i, some f => some (signed.1 * (i + (f : ℚ) / (10 : ℚ) ^ frac.length))
      | _, _ => none
  | _ => none

/-- Python float() on a primitive (None is unreachable behind the or-zero
guard; float(None) would raise a TypeError anyway, hence none). -/
def pyFloat : Prim → Option ℚ
  | .pNum q => some q
  | .pBool b => some (if b then 1 else 0)
  | .pStr s => parseFloat s
  | .pNull => none

/-- One weekday column of one entry, exactly as the report computes it:
entry.get(k, 0) or 0, then float().  none models a raised exception. -/
def coerceDay (e : FlatDoc) (k : String) : Option ℚ :=
  let v := (FlatDoc.get e k).getD (.pNum 0)
  pyFloat (if pyTruthy v then v else .pNum 0)

/-- The sum of the five weekday columns of one entry; none when any
coercion raises. -/
def entryDaily (e : FlatDoc) : Option ℚ :=
  match coerceDay e "mon", coerceDay e "tue", coerceDay e "wed",
      coerceDay e "thu", coerceDay e "fri" with
  | some m, some t, some w, some th, some f => some (m + t + w + th + f)
  | _, _, _, _, _ => none

/-- Add hours for one project code into the accumulating dict, preserving
Python dict insertion order. -/
def addHours (acc : List (Prim × ℚ)) (code : Prim) (q : ℚ) : List (Prim × ℚ) :=
  match acc with
  | [] => [(code, q)]
  | (c, h) :: rest => if c = code then (c, h + q) :: rest else (c, h) :: addHours rest code q

/-- The project code an entry reports: entry.get with the empty-string
default of the loop. -/
def entryCode (e : FlatDoc) : Prim := (FlatDoc.get e "project_code").getD (.pStr "")

/-- The per-entry step of the report loop: skip entries whose project_code
defaults falsy, otherwise accumulate the weekday sum. -/
def processEntry (acc : List (Prim × ℚ)) (e : FlatDoc) : Option (List (Prim × ℚ)) :=
  if pyTruthy (entryCode e) then (entryDaily e).map (addHours acc (entryCode e))
  else some acc

/-- Left fold in the Option monad; none aborts, modelling the exception
propagating to the handler's except clause. -/
def foldOpt (f : α → β → Option α) : α → List β → Option α
  | acc, [] => some acc
  | acc, b :: bs =>
    match f acc b with
    | none => none
    | some acc2 => foldOpt f acc2 bs

/-- The per-timesheet step: iterate the entries array (a missing or
non-array entries field raises). -/
def processTs (acc : List (Prim × ℚ)) (ts : Doc) : Option (List (Prim × ℚ)) :=
  match Doc.get ts "entries" with
  | some (.arrD es) => foldOpt processEntry acc es
  | _ => none

/-- GET /reports/project-hours.  Sums the weekday hour columns of the
entries of approved timesheets per project code; any exception inside the
loop (e.g. float() on a non-numeric string) is caught and surfaced as a
500. -/
def getProjectHours (st : AppState) (tok : Token) : Except Err (List (Prim × ℚ)) :=
  match requireRole ["admin", "manager"] st tok with
  | .error e => .error e
  | .ok _ =>
    match foldOpt processTs [] (st.timesheets.filter (fun d => fieldIs d "status" "approved")) with
    | some m => .ok m
    | none => .error ⟨500, "Failed to fetch reports"⟩

-- ======================= FILE UPLOAD / DOWNLOAD =======================

/-- The base64 alphabet (RFC 4648, as used by Python base64.b64encode). -/
def b64chars : List Char :=
  "ABCDEFGHIJKLMNOPQRSTUVWXYZabcdefghijklmnopqrstuvwxyz0123456789+/".toList

/-- The character encoding a six-bit group. -/
def b64char (n : Nat) : Char := b64chars.getD n '='

/-- Index of a character in the base64 alphabet. -/
def b64idx : List Char → Char → Nat
  | [], _ => 0
  | a :: rest, c => if a = c then 0 else b64idx rest c + 1

/-- The six-bit group a base64 character denotes. -/
def b64val (c : Char) : Nat := b64idx b64chars c

/-- base64.b64encode over a byte list: three bytes become four characters,
with = padding for a trailing one- or two-byte group. -/
def b64encode : List Nat → List Char
  | [] => []
  | [b0] => [b64char (b0 / 4), b64char (b0 % 4 * 16), '=', '=']
  | [b0, b1] => [b64char (b0 / 4), b64char (b0 % 4 * 16 + b1 / 16), b64char (b1 % 16 * 4), '=']
  | b0 :: b1 :: b2 :: rest =>
    b64char (b0 / 4) :: b64char (b0 % 4 * 16 + b1 / 16) ::
      b64char (b1 % 16 * 4 + b2 / 64) :: b64char (b2 % 64) :: b64encode rest

/-- base64.b64decode over the characters produced by b64encode: four
characters become three bytes, a padded final group one or two. -/
def b64decode : List Char → List Nat
  | c0 :: c1 :: c2 :: c3 :: rest =>
    if c2 = '=' then [b64val c0 * 4 + b64val c1 / 16]
    else if c3 = '=' then
      [b64val c0 * 4 + b64val c1 / 16, b64val c1 % 16 * 16 + b64val c2 / 4]
    else
      (b64val c0 * 4 + b64val c1 / 16) :: (b64val c1 % 16 * 16 + b64val c2 / 4) ::
        (b64val c2 % 4 * 64 + b64val c3) :: b64decode rest
  | _ => []

/-- The Mongo dollar-push of a flat sub-document onto an array field,
creating the array when the field is absent.  (Pushing onto a stored
non-array would be a Mongo write error; outside every claim.) -/
def pushDoc (d : Doc) (k : String) (v : FlatDoc) : Doc :=
  match Doc.get d k with
  | some (.arrD l) => Doc.set d k (.arrD (l ++ [v]))
  | none => Doc.set d k (.arrD [v])
  | some _ => d

/-- The sub-document upload_user_document stores: the file bytes
base64-encoded, alongside the metadata fields. -/
def uploadEntry (content : List Nat) (filename contentType docType now : String) :
    FlatDoc :=
  [("type", .pStr docType), ("filename", .pStr filename),
   ("content_type", .pStr contentType),
   ("data", .pStr (String.mk (b64encode content))),
   ("uploaded_at", .pStr now)]

/-- POST /upload/user/user_id/document.  Admin only.  The encoded
sub-document is pushed onto the user's documents array; the update is
fire-and-forget (a missing user id still yields the success message). -/
def uploadUserDocument (st : AppState) (tok : Token) (userId : String)
    (content : List Nat) (filename contentType docType now : String) :
    Except Err String × AppState :=
  match requireRole ["admin"] st tok with
  | .error e => (.error e, st)
  | .ok _ =>
    let res := updateFirst st.users (fun d => fieldIs d "id" userId)
      (fun d => pushDoc d "documents" (uploadEntry content filename contentType docType now))
    (.ok filename, { st with users := res.1 })

/-- GET /download/document/entity_type/entity_id/doc_index.  Any
authenticated caller.  Note Python treats an empty documents array as
falsy, hence 404; returns the decoded bytes with the stored content type
and filename.  (A negative Python index would wrap around; the claim and
this model use the actual non-negative index of a document.) -/
def downloadDocument (st : AppState) (tok : Token) (entityType entityId : String)
    (docIndex : Nat) : Except Err (List Nat × String × String) :=
  match getCurrentUser st tok with
  | .error e => .error e
  | .ok _ =>
    let coll := if entityType = "user" then st.users else st.projects
    match findBy coll "id" entityId with
    | none => .error ⟨404, "Document not found"⟩
    | some entity =>
      match Doc.get entity "documents" with
      | some (.arrD docs) =>
        if docs = [] then .error ⟨404, "Document not found"⟩
        else if docs.length ≤ docIndex then .error ⟨404, "Document not found"⟩
        else
          let document := docs.getD docIndex []
          match FlatDoc.get document "data", FlatDoc.get document "content_type",
              FlatDoc.get document "filename" with
          | some (.pStr data), some (.pStr ct), some (.pStr fn) =>
            .ok (b64decode data.data, ct, fn)
          | _, _, _ => .error ⟨500, "Internal Server Error"⟩
      | _ => .error ⟨404, "Document not found"⟩

-- ======================= OBSERVATIONS AND FIXTURES =======================

/-- Shorthand for a stored string value. -/
def vS (s : String) : Value := .prim (.pStr s)

/-- Shorthand for a stored numeric value. -/
def vN (q : ℚ) : Value := .prim (.pNum q)

/-- The leave balance of the user a lookup by id resolves. -/
def balanceOf (st : AppState) (uid : String) : Option ℚ :=
  match findBy st.users "id" uid with
  | some u =>
    match Doc.get u "leave_balance" with
    | some (.prim (.pNum q)) => some q
    | _ => none
  | none => none

/-- Every user document in the state has a non-negative leave_balance
(documents without a numeric balance are vacuously fine). -/
def balancesNonneg (st : AppState) : Bool :=
  st.users.all (fun u =>
    match Doc.get u "leave_balance" with
    | some (.prim (.pNum q)) => decide (0 ≤ q)
    | _ => true)

/-- The status string of the timesheet a lookup by id resolves. -/
def tsStatus (st : AppState) (tsId : String) : Option String :=
  (findBy st.timesheets "id" tsId).bind (fun d => Doc.getStr d "status")

/-- The status string of the leave a lookup by id resolves. -/
def leaveStatus (st : AppState) (leaveId : String) : Option String :=
  (findBy st.leaves "id" leaveId).bind (fun d => Doc.getStr d "status")

/-- A concrete admin user document. -/
def sampleAdmin : Doc :=
  [("id", vS "a1"), ("email", vS "admin@x.com"), ("name", vS "Admin"),
   ("role", vS "admin"), ("leave_balance", vN 20), ("documents", .arrD []),
   ("created_at", vS "2025-01-01"), ("password", vS (pwHash "admin123"))]

/-- A concrete manager user document. -/
def sampleManager : Doc :=
  [("id", vS "m1"), ("email", vS "manager@x.com"), ("name", vS "Mia"),
   ("role", vS "manager"), ("leave_balance", vN 20), ("documents", .arrD []),
   ("created_at", vS "2025-01-01"), ("password", vS (pwHash "manager123"))]

/-- A concrete employee user document with the default balance of 20. -/
def sampleEmployee : Doc :=
  [("id", vS "e1"), ("email", vS "emp@x.com"), ("name", vS "Eli"),
   ("role", vS "employee"), ("leave_balance", vN 20), ("documents", .arrD []),
   ("created_at", vS "2025-01-01"), ("password", vS (pwHash "emp123"))]

/-- A concrete pending 15-day leave of the sample employee. -/
def sampleLeave : Doc :=
  [("id", vS "l1"), ("user_id", vS "e1"), ("start_date", vS "2025-02-03"),
   ("end_date", vS "2025-02-21"), ("days", vN 15), ("reason", vS "Vacation"),
   ("status", vS "pending"), ("reviewed_by", .prim .pNull),
   ("reviewed_at", .prim .pNull), ("comments", .prim .pNull),
   ("created_at", vS "2025-01-02")]

/-- A concrete approved timesheet of the sample employee. -/
def sampleApprovedTs : Doc :=
  [("id", vS "t1"), ("user_id", vS "e1"), ("week_start", vS "2025-02-03"),
   ("entries", .arrD [[("project_code", .pStr "P1"), ("description", .pStr "work"),
     ("mon", .pNum 8), ("tue", .pNum 8), ("wed", .pNum 8), ("thu", .pNum 8),
     ("fri", .pNum 8)]]),
   ("total_hours", vN 40), ("status", vS "approved"),
   ("submitted_at", vS "2025-02-07"), ("reviewed_by", vS "m1"),
   ("reviewed_at", vS "2025-02-08"), ("comments", .prim .pNull),
   ("created_at", vS "2025-02-03")]

/-- A concrete draft timesheet of the sample employee. -/
def sampleDraftTs : Doc :=
  [("id", vS "t2"), ("user_id", vS "e1"), ("week_start", vS "2025-02-10"),
   ("entries", .arrD [[("project_code", .pStr "P1"), ("description", .pStr "work"),
     ("mon", .pNum 8), ("tue", .pNum 8), ("wed", .pNum 8), ("thu", .pNum 8),
     ("fri", .pNum 8)]]),
   ("total_hours", vN 40), ("status", vS "draft"),
   ("submitted_at", .prim .pNull), ("reviewed_by", .prim .pNull),
   ("reviewed_at", .prim .pNull), ("comments", .prim .pNull),
   ("created_at", vS "2025-02-10")]

/-- A concrete project document. -/
def sampleProject : Doc :=
  [("id", vS "p1"), ("project_code", vS "P1"), ("description", vS "desc"),
   ("project_manager_id", vS "m1"), ("estimated_hours", vN 100),
   ("sub_codes", .arrD []), ("team_members", .arrS [.pStr "e1"]),
   ("documents", .arrD []), ("milestones", .arrD []),
   ("created_at", vS "2025-01-01")]

/-- A concrete invoice document. -/
def sampleInvoice : Doc :=
  [("id", vS "i1"), ("project_id", vS "p1"), ("estimated_hours", vN 100),
   ("estimated_cost", vN 5000), ("actual_hours", vN 0), ("actual_cost", vN 0),
   ("status", vS "draft"), ("created_at", vS "2025-01-01")]

/-- The base concrete application state the witnesses run in. -/
def sampleState : AppState :=
  { users := [sampleAdmin, sampleManager, sampleEmployee],
    projects := [sampleProject],
    timesheets := [sampleApprovedTs, sampleDraftTs],
    leaves := [sampleLeave],
    invoices := [sampleInvoice] }

/-- The admin's bearer token. -/
def adminTok : Token := ⟨"a1", "admin"⟩

/-- The manager's bearer token. -/
def managerTok : Token := ⟨"m1", "manager"⟩

/-- The employee's bearer token. -/
def employeeTok : Token := ⟨"e1", "employee"⟩

-- ======================= BASIC LEMMAS =======================

theorem Doc.get_set_self (d : Doc) (k : String) (v : Value) :
    Doc.get (Doc.set d k v) k = some v := by
  induction d with
  | nil => simp [Doc.set, Doc.get]
  | cons kv rest ih =>
    obtain ⟨k1, v1⟩ := kv
    by_cases h : k1 = k
    · simp [Doc.set, Doc.get, h]
    · simp [Doc.set, Doc.get, h, ih]

theorem Doc.get_set_ne (d : Doc) (k1 k2 : String) (v : Value) (h : k1 ≠ k2) :
    Doc.get (Doc.set d k2 v) k1 = Doc.get d k1 := by
  induction d with
  | nil => simp [Doc.set, Doc.get, Ne.symm h]
  | cons kv rest ih =>
    obtain ⟨k0, v0⟩ := kv
    simp only [Doc.set]
    by_cases h2 : k0 = k2
    · subst h2
      simp [Doc.get, Ne.symm h]
    · rw [if_neg h2]
      by_cases h1 : k0 = k1 <;> simp [Doc.get, h1, ih]

theorem Doc.get_setMany_not_mem (d : Doc) (us : List (String × Value)) (k : String)
    (h : k ∉ us.map Prod.fst) : Doc.get (Doc.setMany d us) k = Doc.get d k := by
  induction us generalizing d with
  | nil => rfl
  | cons kv rest ih =>
    simp only [List.map_cons, List.mem_cons, not_or] at h
    simp only [Doc.setMany]
    rw [ih _ h.2, Doc.get_set_ne _ _ _ _ h.1]

theorem Doc.get_setMany_mem (d : Doc) (us : List (String × Value)) (k : String)
    (v : Value) (hnd : (us.map Prod.fst).Nodup) (hmem : (k, v) ∈ us) :
    Doc.get (Doc.setMany d us) k = some v := by
  induction us generalizing d with
  | nil => cases hmem
  | cons kv rest ih =>
    simp only [List.map_cons, List.nodup_cons] at hnd
    rcases List.mem_cons.mp hmem with heq | htail
    · subst heq
      simp only [Doc.setMany]
      rw [Doc.get_setMany_not_mem _ _ _ hnd.1, Doc.get_set_self]
    · simp only [Doc.setMany]
      exact ih _ hnd.2 htail

theorem Doc.getStr_set_ne (d : Doc) (k1 k2 : String) (v : Value) (h : k1 ≠ k2) :
    Doc.getStr (Doc.set d k2 v) k1 = Doc.getStr d k1 := by
  unfold Doc.getStr
  rw [Doc.get_set_ne _ _ _ _ h]

theorem Doc.getStr_setMany_not_mem (d : Doc) (us : List (String × Value))
    (k : String) (h : k ∉ us.map Prod.fst) :
    Doc.getStr (Doc.setMany d us) k = Doc.getStr d k := by
  unfold Doc.getStr
  rw [Doc.get_setMany_not_mem _ _ _ h]

theorem ne_of_get_ne {d1 d2 : Doc} (k : String)
    (h : Doc.get d1 k ≠ Doc.get d2 k) : d1 ≠ d2 := by
  intro he
  exact h (he ▸ rfl)

theorem fieldIs_iff {d : Doc} {k v : String} :
    fieldIs d k v = true ↔ Doc.getStr d k = some v := by
  unfold fieldIs
  cases h : Doc.getStr d k with
  | none => simp
  | some s => simp [beq_iff_eq]

theorem findBy_cons (d : Doc) (l : List Doc) (k v : String) :
    findBy (d :: l) k v = if fieldIs d k v = true then some d else findBy l k v := by
  unfold findBy
  cases h : fieldIs d k v
  · simp [List.find?_cons, h]
  · simp [List.find?_cons, h]

theorem findBy_append_false {l1 : List Doc} (l2 : List Doc) (k v : String)
    (h : ∀ x ∈ l1, fieldIs x k v = false) :
    findBy (l1 ++ l2) k v = findBy l2 k v := by
  induction l1 with
  | nil => rfl
  | cons d rest ih =>
    have hd : fieldIs d k v = false := h d (by simp)
    rw [List.cons_append, findBy_cons, if_neg (by simp [hd])]
    exact ih (fun x hx => h x (by simp [hx]))

theorem find_append_false {p : Doc → Bool} {l1 : List Doc} (l2 : List Doc)
    (h : ∀ x ∈ l1, p x = false) : (l1 ++ l2).find? p = l2.find? p := by
  induction l1 with
  | nil => rfl
  | cons d rest ih =>
    have hd : p d = false := h d (by simp)
    simp only [List.cons_append, List.find?_cons, hd]
    exact ih (fun x hx => h x (by simp [hx]))

theorem updateFirst_cons_pos {p : Doc → Bool} {d : Doc} (l : List Doc)
    (f : Doc → Doc) (h : p d = true) :
    updateFirst (d :: l) p f = (f d :: l, ⟨1, if f d = d then 0 else 1⟩) := by
  simp [updateFirst, h]

theorem updateFirst_cons_neg {p : Doc → Bool} {d : Doc} (l : List Doc)
    (f : Doc → Doc) (h : p d = false) :
    updateFirst (d :: l) p f = (d :: (updateFirst l p f).1, (updateFirst l p f).2) := by
  simp [updateFirst, h]

theorem updateFirst_append_false {p : Doc → Bool} {l1 : List Doc} (l2 : List Doc)
    (f : Doc → Doc) (h : ∀ x ∈ l1, p x = false) :
    updateFirst (l1 ++ l2) p f =
      (l1 ++ (updateFirst l2 p f).1, (updateFirst l2 p f).2) := by
  induction l1 with
  | nil => simp
  | cons d rest ih =>
    have hd : p d = false := h d (by simp)
    simp only [List.cons_append, updateFirst_cons_neg _ _ hd]
    rw [ih (fun x hx => h x (by simp [hx]))]

theorem updateFirst_no_match {p : Doc → Bool} {l : List Doc} (f : Doc → Doc)
    (h : ∀ x ∈ l, p x = false) : updateFirst l p f = (l, ⟨0, 0⟩) := by
  induction l with
  | nil => rfl
  | cons d rest ih =>
    have hd : p d = false := h d (by simp)
    simp only [updateFirst_cons_neg _ _ hd]
    rw [ih (fun x hx => h x (by simp [hx]))]

theorem updateFirst_mem_of_found {p : Doc → Bool} {l : List Doc} {d : Doc}
    (f : Doc → Doc) (h : l.find? p = some d) : f d ∈ (updateFirst l p f).1 := by
  induction l with
  | nil => cases h
  | cons x rest ih =>
    by_cases hx : p x = true
    · rw [List.find?_cons_of_pos _ hx] at h
      cases h
      simp [updateFirst_cons_pos _ _ hx]
    · rw [Bool.not_eq_true] at hx
      rw [List.find?_cons_of_neg _ (by simp [hx])] at h
      simp [updateFirst_cons_neg _ _ hx, ih h]

theorem getCurrentUser_ok_id {st : AppState} {tok : Token} {cur : Doc}
    (h : getCurrentUser st tok = .ok cur) : Doc.getStr cur "id" = some tok.sub := by
  unfold getCurrentUser at h
  cases hf : findBy st.users "id" tok.sub with
  | none => rw [hf] at h; cases h
  | some u =>
    rw [hf] at h
    cases h
    unfold findBy at hf
    have hp := List.find?_some hf
    exact fieldIs_iff.mp hp

theorem requireRole_ok_elim {roles : List String} {st : AppState} {tok : Token}
    {cur : Doc} (h : requireRole roles st tok = .ok cur) :
    getCurrentUser st tok = .ok cur ∧
      ∃ r, Doc.getStr cur "role" = some r ∧ roles.contains r = true := by
  unfold requireRole at h
  split at h
  · cases h
  · rename_i u heq
    split at h
    · rename_i r hr
      split at h
      · rename_i hc
        cases h
        exact ⟨heq, r, hr, by simpa using hc⟩
      · cases h
    · cases h

theorem getD_concat_length {α : Type} (l : List α) (a dflt : α) :
    (l ++ [a]).getD l.length dflt = a := by
  induction l with
  | nil => rfl
  | cons x rest ih => simp

-- ======================= BASE64 LEMMAS =======================

theorem b64val_b64char : ∀ n, n < 64 → b64val (b64char n) = n := by decide

theorem b64char_ne_pad : ∀ n, n < 64 → b64char n ≠ '=' := by decide

theorem b64_roundtrip : ∀ l : List Nat, (∀ b ∈ l, b < 256) →
    b64decode (b64encode l) = l
  | [], _ => rfl
  | [b0], h => by
    have h0 : b0 < 256 := h b0 (by simp)
    simp only [b64encode, b64decode, if_true]
    rw [b64val_b64char _ (by omega), b64val_b64char _ (by omega)]
    have : b0 / 4 * 4 + b0 % 4 * 16 / 16 = b0 := by omega
    rw [this]
  | [b0, b1], h => by
    have h0 : b0 < 256 := h b0 (by simp)
    have h1 : b1 < 256 := h b1 (by simp)
    simp only [b64encode, b64decode]
    rw [if_neg (b64char_ne_pad _ (by omega))]
    simp only [if_true]
    rw [b64val_b64char _ (by omega), b64val_b64char _ (by omega),
      b64val_b64char _ (by omega)]
    have e1 : b0 / 4 * 4 + (b0 % 4 * 16 + b1 / 16) / 16 = b0 := by omega
    have e2 : (b0 % 4 * 16 + b1 / 16) % 16 * 16 + b1 % 16 * 4 / 4 = b1 := by omega
    rw [e1, e2]
  | b0 :: b1 :: b2 :: rest, h => by
    have h0 : b0 < 256 := h b0 (by simp)
    have h1 : b1 < 256 := h b1 (by simp)
    have h2 : b2 < 256 := h b2 (by simp)
    have ih := b64_roundtrip rest (fun b hb => h b (by simp [hb]))
    simp only [b64encode, b64decode]
    rw [if_neg (b64char_ne_pad _ (by omega)), if_neg (b64char_ne_pad _ (by omega))]
    rw [b64val_b64char _ (by omega), b64val_b64char _ (by omega),
      b64val_b64char _ (by omega), b64val_b64char _ (by omega)]
    rw [ih]
    have e1 : b0 / 4 * 4 + (b0 % 4 * 16 + b1 / 16) / 16 = b0 := by omega
    have e2 : (b0 % 4 * 16 + b1 / 16) % 16 * 16 + (b1 % 16 * 4 + b2 / 64) / 4 = b1 := by
      omega
    have e3 : (b1 % 16 * 4 + b2 / 64) % 4 * 64 + b2 % 64 = b2 := by omega
    rw [e1, e2, e3]

-- ======================= CLAIMS =======================

/-- The credentials of a login request are invalid against a state: either
no user carries the email, or one does (with a stored password hash) and
the password check fails. -/
def invalidCreds (st : AppState) (email password : String) : Prop :=
  findBy st.users "email" email = none ∨
    ∃ u hs, findBy st.users "email" email = some u ∧
      Doc.getStr u "password" = some hs ∧ verifyPassword password hs = false

/-- C7: every login with invalid credentials yields exactly the 401
response with detail "Invalid email or password", and any two such runs
(unknown email in one, known email with wrong password in the other, any
states) produce identical responses, revealing nothing about which part
was wrong. -/
theorem login_invalid_indistinguishable (st1 : AppState) (e1 p1 : String)
    (st2 : AppState) (e2 p2 : String)
    (h1 : invalidCreds st1 e1 p1) (h2 : invalidCreds st2 e2 p2) :
    login st1 e1 p1 = .error ⟨401, "Invalid email or password"⟩ ∧
      login st1 e1 p1 = login st2 e2 p2 := by
  have key : ∀ st e p, invalidCreds st e p →
      login st e p = .error ⟨401, "Invalid email or password"⟩ := by
    intro st e p hc
    rcases hc with hn | ⟨u, hs, hf, hp, hv⟩
    · simp [login, hn]
    · simp [login, hf, hp, hv]
  exact ⟨key _ _ _ h1, (key _ _ _ h1).trans (key _ _ _ h2).symm⟩

/-- Witness for C7 at a concrete state: an unknown email versus a known
email with a wrong password. -/
theorem login_invalid_indistinguishable_witness :
    invalidCreds sampleState "ghost@x.com" "pw" ∧
      invalidCreds sampleState "emp@x.com" "wrong" ∧
      login sampleState "ghost@x.com" "pw" = .error ⟨401, "Invalid email or password"⟩ ∧
      login sampleState "ghost@x.com" "pw" = login sampleState "emp@x.com" "wrong" := by
  have hA : invalidCreds sampleState "ghost@x.com" "pw" := Or.inl (by decide)
  have hB : invalidCreds sampleState "emp@x.com" "wrong" :=
    Or.inr ⟨sampleEmployee, pwHash "emp123", by decide, by decide, by decide⟩
  have h := login_invalid_indistinguishable sampleState "ghost@x.com" "pw"
    sampleState "emp@x.com" "wrong" hA hB
  exact ⟨hA, hB, h.1, h.2⟩

/-- C10: registration needs no token (the function takes none), accepts an
arbitrary role string, and for any unused email creates a user with exactly
that role and returns a bearer token whose subject resolves, via
get_current_user, to the freshly stored user. -/
theorem register_open_any_role (st : AppState)
    (email password name role newId createdAt : String)
    (hemail : findBy st.users "email" email = none)
    (hfresh : ∀ x ∈ st.users, fieldIs x "id" newId = false) :
    ∃ u st2, register st email password name role newId createdAt =
        .ok (⟨newId, role⟩, u, st2) ∧
      Doc.getStr u "role" = some role ∧
      getCurrentUser st2 ⟨newId, role⟩ =
        .ok (u ++ [("password", .prim (.pStr (pwHash password)))]) := by
  refine ⟨newUserDoc email name role newId createdAt,
    { st with users := st.users ++
        [newUserDoc email name role newId createdAt ++
          [("password", .prim (.pStr (pwHash password)))]] }, ?_, ?_, ?_⟩
  · simp [register, hemail]
  · simp [newUserDoc, Doc.getStr, Doc.get]
  · unfold getCurrentUser findBy
    rw [find_append_false _ hfresh]
    simp [List.find?, fieldIs, newUserDoc, Doc.getStr, Doc.get]

/-- Witness for C10: registering a fresh email with role admin on the
sample state. -/
theorem register_open_any_role_witness :
    ∃ u st2, register sampleState "new@x.com" "pw" "New" "admin" "u9" "t9" =
        .ok (⟨"u9", "admin"⟩, u, st2) ∧
      Doc.getStr u "role" = some "admin" ∧
      getCurrentUser st2 ⟨"u9", "admin"⟩ =
        .ok (u ++ [("password", .prim (.pStr (pwHash "pw")))]) :=
  register_open_any_role sampleState "new@x.com" "pw" "New" "admin" "u9" "t9"
    (by decide) (by decide)

/-- C4: leave creation errors with the 400 InsufficientBalance response
exactly when the requested days exceed the caller's current balance; on
success it inserts the pending leave document and leaves the users
collection (hence every balance) untouched. -/
theorem createLeave_gate_and_frame (st : AppState) (tok : Token)
    (sd ed : String) (days : ℚ) (reason newId createdAt : String)
    (cur u : Doc) (bal : ℚ)
    (hcur : getCurrentUser st tok = .ok cur)
    (hu : findBy st.users "id" tok.sub = some u)
    (hbal : Doc.get u "leave_balance" = some (.prim (.pNum bal))) :
    ((createLeave st tok sd ed days reason newId createdAt).1 =
        .error ⟨400, "Insufficient leave balance"⟩ ↔ bal < days) ∧
      (bal < days → (createLeave st tok sd ed days reason newId createdAt).2 = st) ∧
      (¬ bal < days →
        (createLeave st tok sd ed days reason newId createdAt).1 =
            .ok (newLeaveDoc tok.sub sd ed days reason newId createdAt) ∧
          Doc.getStr (newLeaveDoc tok.sub sd ed days reason newId createdAt) "status" =
            some "pending" ∧
          (createLeave st tok sd ed days reason newId createdAt).2.users = st.users ∧
          (createLeave st tok sd ed days reason newId createdAt).2.leaves =
            st.leaves ++ [newLeaveDoc tok.sub sd ed days reason newId createdAt]) := by
  have hid := getCurrentUser_ok_id hcur
  refine ⟨⟨?_, ?_⟩, ?_, ?_⟩
  · intro he
    by_contra hlt
    simp [createLeave, hcur, hid, hu, hbal, hlt] at he
  · intro hlt
    simp [createLeave, hcur, hid, hu, hbal, hlt]
  · intro hlt
    simp [createLeave, hcur, hid, hu, hbal, hlt]
  · intro hlt
    refine ⟨?_, ?_, ?_, ?_⟩
    · simp [createLeave, hcur, hid, hu, hbal, hlt]
    · simp [newLeaveDoc, Doc.getStr, Doc.get]
    · simp [createLeave, hcur, hid, hu, hbal, hlt]
    · simp [createLeave, hcur, hid, hu, hbal, hlt]

/-- Witness for C4 in the failing direction: the sample employee with
balance 20 requests 25 days. -/
theorem createLeave_gate_and_frame_witness :
    ((createLeave sampleState employeeTok "2025-03-01" "2025-04-10" 25 "r" "l9" "c").1 =
        .error ⟨400, "Insufficient leave balance"⟩ ↔ (20 : ℚ) < 25) ∧
      ((20 : ℚ) < 25 →
        (createLeave sampleState employeeTok "2025-03-01" "2025-04-10" 25 "r" "l9" "c").2 =
          sampleState) ∧
      (¬ (20 : ℚ) < 25 →
        (createLeave sampleState employeeTok "2025-03-01" "2025-04-10" 25 "r" "l9" "c").1 =
            .ok (newLeaveDoc "e1" "2025-03-01" "2025-04-10" 25 "r" "l9" "c") ∧
          Doc.getStr (newLeaveDoc "e1" "2025-03-01" "2025-04-10" 25 "r" "l9" "c") "status" =
            some "pending" ∧
          (createLeave sampleState employeeTok "2025-03-01" "2025-04-10" 25 "r" "l9" "c").2.users =
            sampleState.users ∧
          (createLeave sampleState employeeTok "2025-03-01" "2025-04-10" 25 "r" "l9" "c").2.leaves =
            sampleState.leaves ++ [newLeaveDoc "e1" "2025-03-01" "2025-04-10" 25 "r" "l9" "c"]) :=
  createLeave_gate_and_frame sampleState employeeTok "2025-03-01" "2025-04-10" 25 "r"
    "l9" "c" sampleEmployee sampleEmployee 20 rfl rfl rfl

/-- C8 (code bug):  PUT on an existing project or invoice whose payload
equals the stored values returns 404, because the handlers test
modified_count instead of matched_count.  Both entities exist in the state
yet the update responds NotFound. -/
theorem updateExisting_noop_404 :
    (findBy sampleState.projects "id" "p1").isSome = true ∧
      (updateProject sampleState adminTok "p1" [("description", vS "desc")]).1 =
        .error ⟨404, "Project not found"⟩ ∧
      (findBy sampleState.invoices "id" "i1").isSome = true ∧
      (updateInvoice sampleState adminTok "i1" [("estimated_hours", vN 100)]).1 =
        .error ⟨404, "Invoice not found"⟩ :=
  ⟨by decide, by rfl, by decide, by rfl⟩

/-- C3: PUT on a draft timesheet applies the payload verbatim: for any
authenticated caller who owns a draft timesheet and any payload with
distinct keys, the request succeeds, the stored document becomes the
field-by-field dollar-set of the payload over the old document, and every
payload pair (k, v) — status included — is afterwards stored at k. -/
theorem updateTimesheet_draft_verbatim (st : AppState) (tok : Token)
    (tsId : String) (updates : List (String × Value)) (cur ts : Doc)
    (hcur : getCurrentUser st tok = .ok cur)
    (hts : findBy st.timesheets "id" tsId = some ts)
    (hdraft : Doc.get ts "status" = some (.prim (.pStr "draft")))
    (_hown : Doc.getStr ts "user_id" = some tok.sub)
    (hne : updates ≠ [])
    (hnd : (updates.map Prod.fst).Nodup) :
    (∃ r, (updateTimesheet st tok tsId updates).1 = .ok r) ∧
      Doc.setMany ts updates ∈ (updateTimesheet st tok tsId updates).2.timesheets ∧
      ∀ k v, (k, v) ∈ updates → Doc.get (Doc.setMany ts updates) k = some v := by
  have hred : updateTimesheet st tok tsId updates = applyTimesheetUpdate st tsId updates := by
    simp [updateTimesheet, hcur, hts, hdraft]
  refine ⟨⟨findBy (updateFirst st.timesheets (fun d => fieldIs d "id" tsId)
      (fun d => Doc.setMany d updates)).1 "id" tsId, ?_⟩, ?_, ?_⟩
  · rw [hred]
    simp [applyTimesheetUpdate, hne]
  · rw [hred]
    simp only [applyTimesheetUpdate, if_neg hne]
    exact updateFirst_mem_of_found _ hts
  · intro k v hm
    exact Doc.get_setMany_mem _ _ _ _ hnd hm

/-- The state after the manager approves the pending leave l1 once. -/
def c1StateA : AppState :=
  (approveLeave sampleState managerTok "l1" (some "ok") "2025-03-01").2

/-- The state after the manager approves the same leave l1 a second time. -/
def c1StateB : AppState :=
  (approveLeave c1StateA managerTok "l1" (some "ok") "2025-03-02").2

/-- C1 counterexample: starting from a state where every balance is
non-negative (employee e1 holds 20 days and a pending 15-day leave),
approving the same leave twice succeeds both times — approve_leave
re-checks neither the leave's status nor the remaining balance — and
leaves e1 with a balance of -10. -/
theorem leave_balance_goes_negative_cex :
    balancesNonneg sampleState = true ∧
      (approveLeave sampleState managerTok "l1" (some "ok") "2025-03-01").1.toOption.isSome =
        true ∧
      (approveLeave c1StateA managerTok "l1" (some "ok") "2025-03-02").1.toOption.isSome =
        true ∧
      balanceOf c1StateB "e1" = some (-10) ∧
      (-10 : ℚ) < 0 := by
  refine ⟨by decide, by decide, by decide, ?_, by norm_num⟩
  have hb : balanceOf c1StateB "e1" = some (((20 : ℚ) + -15) + -15) := by rfl
  rw [hb]
  norm_num

/-- C1 amended: the non-negativity that actually holds is local to one
create/approve pair: creating a leave succeeds only when the requested
days do not exceed the caller's current balance, and a single approval of
that fresh leave deducts exactly days, leaving the balance
balance - days which is non-negative.  The deduction itself is
unconditional (no status or balance re-check), which is what the
counterexample exploits with a second approval. -/
theorem createLeave_then_approve_nonneg (st : AppState) (tok mtok : Token)
    (sd ed : String) (days : ℚ) (reason newId createdAt now : String)
    (comments : Option String) (upre upost : List Doc) (u cur mgr lv : Doc)
    (bal : ℚ) (st1 : AppState)
    (hcur : getCurrentUser st tok = .ok cur)
    (husers : st.users = upre ++ u :: upost)
    (hupre : ∀ x ∈ upre, fieldIs x "id" tok.sub = false)
    (huid : Doc.getStr u "id" = some tok.sub)
    (hbal : Doc.get u "leave_balance" = some (.prim (.pNum bal)))
    (hfresh : ∀ x ∈ st.leaves, fieldIs x "id" newId = false)
    (hsucc : (createLeave st tok sd ed days reason newId createdAt).1 = .ok lv)
    (hst1 : (createLeave st tok sd ed days reason newId createdAt).2 = st1)
    (hrole : requireRole ["admin", "manager"] st1 mtok = .ok mgr) :
    (approveLeave st1 mtok newId comments now).1.toOption.isSome = true ∧
      balanceOf (approveLeave st1 mtok newId comments now).2 tok.sub =
        some (bal - days) ∧
      0 ≤ bal - days := by
  have hid := getCurrentUser_ok_id hcur
  have hfindu : findBy st.users "id" tok.sub = some u := by
    rw [husers, findBy_append_false _ _ _ hupre, findBy_cons, if_pos (fieldIs_iff.mpr huid)]
  by_cases hlt : bal < days
  · exfalso
    simp [createLeave, hcur, hid, hfindu, hbal, hlt] at hsucc
  · have hrunC : createLeave st tok sd ed days reason newId createdAt =
        (.ok (newLeaveDoc tok.sub sd ed days reason newId createdAt),
          { st with leaves :=
              st.leaves ++ [newLeaveDoc tok.sub sd ed days reason newId createdAt] }) := by
      simp [createLeave, hcur, hid, hfindu, hbal, hlt]
    rw [hrunC] at hst1
    subst hst1
    have hmgrid := getCurrentUser_ok_id (requireRole_ok_elim hrole).1
    have hfpL : fieldIs (newLeaveDoc tok.sub sd ed days reason newId createdAt)
        "id" newId = true := by
      simp [newLeaveDoc, fieldIs, Doc.getStr, Doc.get]
    have hfindL : findBy
        (st.leaves ++ [newLeaveDoc tok.sub sd ed days reason newId createdAt])
        "id" newId = some (newLeaveDoc tok.sub sd ed days reason newId createdAt) := by
      rw [findBy_append_false _ _ _ hfresh, findBy_cons, if_pos hfpL]
    have huidL : Doc.getStr (newLeaveDoc tok.sub sd ed days reason newId createdAt)
        "user_id" = some tok.sub := by
      simp [newLeaveDoc, Doc.getStr, Doc.get]
    have hdaysL : Doc.get (newLeaveDoc tok.sub sd ed days reason newId createdAt)
        "days" = some (.prim (.pNum days)) := by
      simp [newLeaveDoc, Doc.get]
    have hincu : incNum u "leave_balance" (-days) =
        Doc.set u "leave_balance" (.prim (.pNum (bal + -days))) := by
      simp [incNum, hbal]
    have hupdU : updateFirst st.users (fun d => fieldIs d "id" tok.sub)
        (fun d => incNum d "leave_balance" (-days)) =
        (upre ++ incNum u "leave_balance" (-days) :: upost,
          ⟨1, if incNum u "leave_balance" (-days) = u then 0 else 1⟩) := by
      rw [husers, updateFirst_append_false _ _ hupre,
        updateFirst_cons_pos _ _ (fieldIs_iff.mpr huid)]
    have hLstat : Doc.get (newLeaveDoc tok.sub sd ed days reason newId createdAt)
        "status" = some (.prim (.pStr "pending")) := by
      simp [newLeaveDoc, Doc.get]
    have hstatAfter : Doc.get (Doc.setMany
        (newLeaveDoc tok.sub sd ed days reason newId createdAt)
        (approveUpd mtok.sub now comments)) "status" =
        some (.prim (.pStr "approved")) :=
      Doc.get_setMany_mem _ (approveUpd mtok.sub now comments) "status"
        (.prim (.pStr "approved")) (by simp [approveUpd]) (by simp [approveUpd])
    have hfneL : Doc.setMany (newLeaveDoc tok.sub sd ed days reason newId createdAt)
        (approveUpd mtok.sub now comments) ≠
        newLeaveDoc tok.sub sd ed days reason newId createdAt := by
      apply ne_of_get_ne "status"
      rw [hstatAfter, hLstat]
      simp
    have hupdL : updateFirst
        (st.leaves ++ [newLeaveDoc tok.sub sd ed days reason newId createdAt])
        (fun d => fieldIs d "id" newId)
        (fun d => Doc.setMany d (approveUpd mtok.sub now comments)) =
        (st.leaves ++ [Doc.setMany (newLeaveDoc tok.sub sd ed days reason newId createdAt)
            (approveUpd mtok.sub now comments)], ⟨1, 1⟩) := by
      rw [updateFirst_append_false _ _ hfresh, updateFirst_cons_pos _ _ hfpL]
      simp [hfneL]
    have hidAfterL : Doc.getStr (Doc.setMany
        (newLeaveDoc tok.sub sd ed days reason newId createdAt)
        (approveUpd mtok.sub now comments)) "id" = some newId := by
      rw [Doc.getStr_setMany_not_mem _ _ _ (by simp [approveUpd])]
      simp [newLeaveDoc, Doc.getStr, Doc.get]
    have hfindLAfter : findBy
        (st.leaves ++ [Doc.setMany (newLeaveDoc tok.sub sd ed days reason newId createdAt)
          (approveUpd mtok.sub now comments)]) "id" newId =
        some (Doc.setMany (newLeaveDoc tok.sub sd ed days reason newId createdAt)
          (approveUpd mtok.sub now comments)) := by
      rw [findBy_append_false _ _ _ hfresh, findBy_cons, if_pos (fieldIs_iff.mpr hidAfterL)]
    have hrunA : approveLeave
        { st with leaves := st.leaves ++ [newLeaveDoc tok.sub sd ed days reason newId createdAt] }
        mtok newId comments now =
        (.ok (Doc.setMany (newLeaveDoc tok.sub sd ed days reason newId createdAt)
            (approveUpd mtok.sub now comments)),
          { st with
              users := upre ++ incNum u "leave_balance" (-days) :: upost,
              leaves := st.leaves ++
                [Doc.setMany (newLeaveDoc tok.sub sd ed days reason newId createdAt)
                  (approveUpd mtok.sub now comments)] }) := by
      simp [approveLeave, hrole, hfindL, huidL, hdaysL, hmgrid, hupdU, hupdL, hfindLAfter]
    have hfinalU : fieldIs (Doc.set u "leave_balance" (.prim (.pNum (bal + -days))))
        "id" tok.sub = true := by
      apply fieldIs_iff.mpr
      rw [Doc.getStr_set_ne _ _ _ _ (by decide)]
      exact huid
    have hfindFinal : findBy (upre ++ incNum u "leave_balance" (-days) :: upost)
        "id" tok.sub = some (incNum u "leave_balance" (-days)) := by
      rw [hincu]
      rw [findBy_append_false _ _ _ hupre, findBy_cons, if_pos hfinalU]
    have hgetFinal : Doc.get (incNum u "leave_balance" (-days)) "leave_balance" =
        some (.prim (.pNum (bal + -days))) := by
      rw [hincu, Doc.get_set_self]
    refine ⟨?_, ?_, ?_⟩
    · rw [hrunA]
      rfl
    · rw [hrunA]
      simp [balanceOf, hfindFinal, hgetFinal, sub_eq_add_neg]
    · rw [sub_nonneg]
      exact le_of_not_lt hlt

/-- Witness for C1 amended: the sample employee creates a 20-day leave
against a balance of 20 and the manager approves it once, ending exactly
at balance 0. -/
theorem createLeave_then_approve_nonneg_witness :
    (approveLeave (createLeave sampleState employeeTok "2025-03-03" "2025-03-28" 20
        "long leave" "l9" "c9").2 managerTok "l9" (some "ok")
        "2025-04-01").1.toOption.isSome = true ∧
      balanceOf (approveLeave (createLeave sampleState employeeTok "2025-03-03"
          "2025-03-28" 20 "long leave" "l9" "c9").2 managerTok "l9" (some "ok")
          "2025-04-01").2 "e1" = some ((20 : ℚ) - 20) ∧
      0 ≤ (20 : ℚ) - 20 :=
  createLeave_then_approve_nonneg sampleState employeeTok managerTok "2025-03-03"
    "2025-03-28" 20 "long leave" "l9" "c9" "2025-04-01" (some "ok")
    [sampleAdmin, sampleManager] [] sampleEmployee sampleEmployee sampleManager
    (newLeaveDoc "e1" "2025-03-03" "2025-03-28" 20 "long leave" "l9" "c9") 20
    (createLeave sampleState employeeTok "2025-03-03" "2025-03-28" 20 "long leave"
      "l9" "c9").2
    rfl (by decide) (by decide) (by decide) (by decide) (by decide) rfl rfl rfl

/-- C2 counterexample: the claim that statuses only move forward and that
submit succeeds only on drafts is false.  In the sample state t1 is
approved and owned by the employee; submitting it succeeds and moves it
back to submitted, and approving the draft t2 succeeds directly without a
prior submit. -/
theorem timesheet_backward_transition_cex :
    tsStatus sampleState "t1" = some "approved" ∧
      (submitTimesheet sampleState employeeTok "t1" "2025-03-01").1.toOption.isSome = true ∧
      tsStatus (submitTimesheet sampleState employeeTok "t1" "2025-03-01").2 "t1" =
        some "submitted" ∧
      tsStatus sampleState "t2" = some "draft" ∧
      (approveTimesheet sampleState managerTok "t2" none "2025-03-01").1.toOption.isSome = true ∧
      tsStatus (approveTimesheet sampleState managerTok "t2" none "2025-03-01").2 "t2" =
        some "approved" := by
  refine ⟨by decide, by decide, by decide, by decide, by decide, by decide⟩

/-- C2 amended: submit_timesheet succeeds for the owner of a timesheet
regardless of its current status and sets the status to submitted (so an
approved or rejected timesheet moves back), and approve_timesheet and
reject_timesheet succeed for any admin/manager on any existing timesheet
regardless of its current status (so a draft can be approved or rejected
without ever being submitted). -/
theorem timesheet_transitions_unchecked :
    (∀ (st : AppState) (tok : Token) (tsId now : String) (pre post : List Doc)
        (ts cur : Doc) (sv : Value),
      getCurrentUser st tok = .ok cur →
      st.timesheets = pre ++ ts :: post →
      (∀ x ∈ pre, (fieldIs x "id" tsId && fieldIs x "user_id" tok.sub) = false) →
      (∀ x ∈ pre, fieldIs x "id" tsId = false) →
      Doc.getStr ts "id" = some tsId →
      Doc.getStr ts "user_id" = some tok.sub →
      Doc.get ts "status" = some sv →
      sv ≠ .prim (.pStr "submitted") →
      (submitTimesheet st tok tsId now).1 =
          .ok (some (Doc.setMany ts (submitUpd now))) ∧
        tsStatus (submitTimesheet st tok tsId now).2 tsId = some "submitted") ∧
    (∀ (st : AppState) (tok : Token) (tsId now : String) (comments : Option String)
        (pre post : List Doc) (ts mgr : Doc),
      requireRole ["admin", "manager"] st tok = .ok mgr →
      st.timesheets = pre ++ ts :: post →
      (∀ x ∈ pre, fieldIs x "id" tsId = false) →
      Doc.getStr ts "id" = some tsId →
      (approveTimesheet st tok tsId comments now).1 =
          .ok (some (Doc.setMany ts (approveUpd tok.sub now comments))) ∧
        tsStatus (approveTimesheet st tok tsId comments now).2 tsId = some "approved") ∧
    (∀ (st : AppState) (tok : Token) (tsId now comments : String)
        (pre post : List Doc) (ts mgr : Doc),
      requireRole ["admin", "manager"] st tok = .ok mgr →
      st.timesheets = pre ++ ts :: post →
      (∀ x ∈ pre, fieldIs x "id" tsId = false) →
      Doc.getStr ts "id" = some tsId →
      (rejectTimesheet st tok tsId comments now).1 =
          .ok (some (Doc.setMany ts (rejectUpd tok.sub now comments))) ∧
        tsStatus (rejectTimesheet st tok tsId comments now).2 tsId = some "rejected") := by
  refine ⟨?_, ?_, ?_⟩
  · intro st tok tsId now pre post ts cur sv hcur hsplit hpre hpreId hid hown hstat hsv
    have hcurid := getCurrentUser_ok_id hcur
    have hpts : (fieldIs ts "id" tsId && fieldIs ts "user_id" tok.sub) = true := by
      simp [fieldIs_iff.mpr hid, fieldIs_iff.mpr hown]
    have hstatAfter : Doc.get (Doc.setMany ts (submitUpd now)) "status" =
        some (.prim (.pStr "submitted")) :=
      Doc.get_setMany_mem ts (submitUpd now) "status" (.prim (.pStr "submitted"))
        (by simp [submitUpd]) (by simp [submitUpd])
    have hfne : Doc.setMany ts (submitUpd now) ≠ ts := by
      apply ne_of_get_ne "status"
      rw [hstatAfter, hstat]
      intro he
      exact hsv (Option.some.inj he).symm
    have hupdate : updateFirst st.timesheets
        (fun d => fieldIs d "id" tsId && fieldIs d "user_id" tok.sub)
        (fun d => Doc.setMany d (submitUpd now)) =
        (pre ++ Doc.setMany ts (submitUpd now) :: post, ⟨1, 1⟩) := by
      rw [hsplit, updateFirst_append_false _ _ hpre, updateFirst_cons_pos _ _ hpts]
      simp [hfne]
    have hidAfter : Doc.getStr (Doc.setMany ts (submitUpd now)) "id" = some tsId := by
      rw [Doc.getStr_setMany_not_mem _ _ _ (by simp [submitUpd])]
      exact hid
    have hfindAfter : findBy (pre ++ Doc.setMany ts (submitUpd now) :: post) "id" tsId =
        some (Doc.setMany ts (submitUpd now)) := by
      rw [findBy_append_false _ _ _ hpreId, findBy_cons, if_pos (fieldIs_iff.mpr hidAfter)]
    have hrun : submitTimesheet st tok tsId now =
        (.ok (findBy (pre ++ Doc.setMany ts (submitUpd now) :: post) "id" tsId),
          { st with timesheets := pre ++ Doc.setMany ts (submitUpd now) :: post }) := by
      simp [submitTimesheet, hcur, hcurid, hupdate]
    refine ⟨?_, ?_⟩
    · rw [hrun]
      simp [hfindAfter]
    · rw [hrun]
      simp [tsStatus, hfindAfter, Doc.getStr, hstatAfter]
  · intro st tok tsId now comments pre post ts mgr hrole hsplit hpreId hid
    obtain ⟨hcur, r, hr, hcont⟩ := requireRole_ok_elim hrole
    have hmgrid := getCurrentUser_ok_id hcur
    have hstatAfter : Doc.get (Doc.setMany ts (approveUpd tok.sub now comments)) "status" =
        some (.prim (.pStr "approved")) :=
      Doc.get_setMany_mem ts (approveUpd tok.sub now comments) "status"
        (.prim (.pStr "approved")) (by simp [approveUpd]) (by simp [approveUpd])
    have hfind : findBy st.timesheets "id" tsId = some ts := by
      rw [hsplit, findBy_append_false _ _ _ hpreId, findBy_cons,
        if_pos (fieldIs_iff.mpr hid)]
    have hupdate : updateFirst st.timesheets (fun d => fieldIs d "id" tsId)
        (fun d => Doc.setMany d (approveUpd tok.sub now comments)) =
        (pre ++ Doc.setMany ts (approveUpd tok.sub now comments) :: post,
          ⟨1, if Doc.setMany ts (approveUpd tok.sub now comments) = ts then 0 else 1⟩) := by
      rw [hsplit, updateFirst_append_false _ _ hpreId,
        updateFirst_cons_pos _ _ (fieldIs_iff.mpr hid)]
    have hidAfter : Doc.getStr (Doc.setMany ts (approveUpd tok.sub now comments)) "id" =
        some tsId := by
      rw [Doc.getStr_setMany_not_mem _ _ _ (by simp [approveUpd])]
      exact hid
    have hfindAfter : findBy
        (pre ++ Doc.setMany ts (approveUpd tok.sub now comments) :: post) "id" tsId =
        some (Doc.setMany ts (approveUpd tok.sub now comments)) := by
      rw [findBy_append_false _ _ _ hpreId, findBy_cons, if_pos (fieldIs_iff.mpr hidAfter)]
    have hrun : approveTimesheet st tok tsId comments now =
        (.ok (findBy (pre ++ Doc.setMany ts (approveUpd tok.sub now comments) :: post)
            "id" tsId),
          { st with timesheets :=
              pre ++ Doc.setMany ts (approveUpd tok.sub now comments) :: post }) := by
      simp [approveTimesheet, hrole, hfind, hmgrid, hupdate]
    refine ⟨?_, ?_⟩
    · rw [hrun]
      simp [hfindAfter]
    · rw [hrun]
      simp [tsStatus, hfindAfter, Doc.getStr, hstatAfter]
  · intro st tok tsId now comments pre post ts mgr hrole hsplit hpreId hid
    obtain ⟨hcur, r, hr, hcont⟩ := requireRole_ok_elim hrole
    have hmgrid := getCurrentUser_ok_id hcur
    have hstatAfter : Doc.get (Doc.setMany ts (rejectUpd tok.sub now comments)) "status" =
        some (.prim (.pStr "rejected")) :=
      Doc.get_setMany_mem ts (rejectUpd tok.sub now comments) "status"
        (.prim (.pStr "rejected")) (by simp [rejectUpd]) (by simp [rejectUpd])
    have hfind : findBy st.timesheets "id" tsId = some ts := by
      rw [hsplit, findBy_append_false _ _ _ hpreId, findBy_cons,
        if_pos (fieldIs_iff.mpr hid)]
    have hupdate : updateFirst st.timesheets (fun d => fieldIs d "id" tsId)
        (fun d => Doc.setMany d (rejectUpd tok.sub now comments)) =
        (pre ++ Doc.setMany ts (rejectUpd tok.sub now comments) :: post,
          ⟨1, if Doc.setMany ts (rejectUpd tok.sub now comments) = ts then 0 else 1⟩) := by
      rw [hsplit, updateFirst_append_false _ _ hpreId,
        updateFirst_cons_pos _ _ (fieldIs_iff.mpr hid)]
    have hidAfter : Doc.getStr (Doc.setMany ts (rejectUpd tok.sub now comments)) "id" =
        some tsId := by
      rw [Doc.getStr_setMany_not_mem _ _ _ (by simp [rejectUpd])]
      exact hid
    have hfindAfter : findBy
        (pre ++ Doc.setMany ts (rejectUpd tok.sub now comments) :: post) "id" tsId =
        some (Doc.setMany ts (rejectUpd tok.sub now comments)) := by
      rw [findBy_append_false _ _ _ hpreId, findBy_cons, if_pos (fieldIs_iff.mpr hidAfter)]
    have hrun : rejectTimesheet st tok tsId comments now =
        (.ok (findBy (pre ++ Doc.setMany ts (rejectUpd tok.sub now comments) :: post)
            "id" tsId),
          { st with timesheets :=
              pre ++ Doc.setMany ts (rejectUpd tok.sub now comments) :: post }) := by
      simp [rejectTimesheet, hrole, hfind, hmgrid, hupdate]
    refine ⟨?_, ?_⟩
    · rw [hrun]
      simp [hfindAfter]
    · rw [hrun]
      simp [tsStatus, hfindAfter, Doc.getStr, hstatAfter]

/-- Witness for C2 amended: backward submit of the approved t1 by its
owner, direct approval of the draft t2 by the manager, and direct
rejection of the draft t2 by the manager, in the sample state. -/
theorem timesheet_transitions_unchecked_witness :
    ((submitTimesheet sampleState employeeTok "t1" "2025-03-01").1 =
        .ok (some (Doc.setMany sampleApprovedTs (submitUpd "2025-03-01"))) ∧
      tsStatus (submitTimesheet sampleState employeeTok "t1" "2025-03-01").2 "t1" =
        some "submitted") ∧
    ((approveTimesheet sampleState managerTok "t2" none "2025-03-01").1 =
        .ok (some (Doc.setMany sampleDraftTs (approveUpd "m1" "2025-03-01" none))) ∧
      tsStatus (approveTimesheet sampleState managerTok "t2" none "2025-03-01").2 "t2" =
        some "approved") ∧
    ((rejectTimesheet sampleState managerTok "t2" "needs work" "2025-03-01").1 =
        .ok (some (Doc.setMany sampleDraftTs (rejectUpd "m1" "2025-03-01" "needs work"))) ∧
      tsStatus (rejectTimesheet sampleState managerTok "t2" "needs work" "2025-03-01").2
          "t2" =
        some "rejected") :=
  ⟨timesheet_transitions_unchecked.1 sampleState employeeTok "t1" "2025-03-01"
      [] [sampleDraftTs] sampleApprovedTs sampleEmployee
      (vS "approved") rfl (by decide) (by decide) (by decide) (by decide) (by decide)
      (by decide) (by decide),
    timesheet_transitions_unchecked.2.1 sampleState managerTok "t2" "2025-03-01" none
      [sampleApprovedTs] [] sampleDraftTs sampleManager rfl (by decide) (by decide)
      (by decide),
    timesheet_transitions_unchecked.2.2 sampleState managerTok "t2" "2025-03-01"
      "needs work" [sampleApprovedTs] [] sampleDraftTs sampleManager rfl (by decide)
      (by decide) (by decide)⟩

/-- When the payload has no password key, the hashing rewrite is the
identity. -/
theorem hashPwField_no_password (us : List (String × Value))
    (h : "password" ∉ us.map Prod.fst) : hashPwField us = .ok us := by
  induction us with
  | nil => rfl
  | cons kv rest ih =>
    simp only [List.map_cons, List.mem_cons, not_or] at h
    simp only [hashPwField, if_neg (Ne.symm h.1), ih h.2, Except.map]

/-- C6: when a manager calls PUT /users/user_id, every field of the target
user other than leave_balance keeps its old value — only a leave_balance
key of the payload is applied (and it is applied when present, absent a
password field, whose mishandling aborts before any write). -/
theorem updateUser_manager_only_balance (st : AppState) (tok : Token)
    (userId : String) (updates : List (String × Value)) (upre upost : List Doc)
    (u cur : Doc)
    (hrole : requireRole ["admin", "manager"] st tok = .ok cur)
    (hmgr : Doc.getStr cur "role" = some "manager")
    (husers : st.users = upre ++ u :: upost)
    (hupre : ∀ x ∈ upre, fieldIs x "id" userId = false)
    (huid : Doc.getStr u "id" = some userId) :
    ∃ u2, (updateUser st tok userId updates).2.users = upre ++ u2 :: upost ∧
      (∀ k, k ≠ "leave_balance" → Doc.get u2 k = Doc.get u k) ∧
      (∀ v, "password" ∉ updates.map Prod.fst → (updates.map Prod.fst).Nodup →
        ("leave_balance", v) ∈ updates → Doc.get u2 "leave_balance" = some v) := by
  have hfilterKeys : ∀ ups : List (String × Value), ∀ k,
      k ≠ "leave_balance" → k ∉ (ups.filter (fun kv => kv.1 == "leave_balance")).map Prod.fst := by
    intro ups k hk hmem
    obtain ⟨kv, hkv, hfst⟩ := List.mem_map.mp hmem
    have := (List.mem_filter.mp hkv).2
    rw [beq_iff_eq] at this
    exact hk (hfst ▸ this)
  cases hh : hashPwField updates with
  | error e =>
    refine ⟨u, ?_, fun k _ => rfl, ?_⟩
    · simp [updateUser, hrole, hh, husers]
    · intro v hnp _ _
      rw [hashPwField_no_password _ hnp] at hh
      cases hh
  | ok ups1 =>
    by_cases hemp : ups1.filter (fun kv => kv.1 == "leave_balance") = []
    · refine ⟨u, ?_, fun k _ => rfl, ?_⟩
      · simp [updateUser, hrole, hh, hmgr, hemp, husers]
      · intro v hnp _ hmem
        rw [hashPwField_no_password _ hnp] at hh
        cases hh
        have : ("leave_balance", v) ∈ updates.filter (fun kv => kv.1 == "leave_balance") :=
          List.mem_filter.mpr ⟨hmem, by simp⟩
        rw [hemp] at this
        cases this
    · have hupd : updateFirst st.users (fun d => fieldIs d "id" userId)
          (fun d => Doc.setMany d (ups1.filter (fun kv => kv.1 == "leave_balance"))) =
          (upre ++ Doc.setMany u (ups1.filter (fun kv => kv.1 == "leave_balance")) :: upost,
            ⟨1, if Doc.setMany u (ups1.filter (fun kv => kv.1 == "leave_balance")) = u
              then 0 else 1⟩) := by
        rw [husers, updateFirst_append_false _ _ hupre,
          updateFirst_cons_pos _ _ (fieldIs_iff.mpr huid)]
      refine ⟨Doc.setMany u (ups1.filter (fun kv => kv.1 == "leave_balance")), ?_, ?_, ?_⟩
      · simp [updateUser, hrole, hh, hmgr, hemp, hupd]
      · intro k hk
        exact Doc.get_setMany_not_mem _ _ _ (hfilterKeys ups1 k hk)
      · intro v hnp hnd hmem
        rw [hashPwField_no_password _ hnp] at hh
        cases hh
        apply Doc.get_setMany_mem
        · exact hnd.sublist ((List.filter_sublist _).map Prod.fst)
        · exact List.mem_filter.mpr ⟨hmem, by simp⟩

/-- Dictionary lookup (default 0) in the accumulated project-hours map. -/
def lookupD (m : List (Prim × ℚ)) (c : Prim) : ℚ :=
  match m with
  | [] => 0
  | (c1, q) :: rest => if c1 = c then q else lookupD rest c

/-- The hours one entry contributes to a given project code: its coerced
weekday sum when its code is truthy and equal to the code, else zero. -/
def entryContrib (c : Prim) (e : FlatDoc) : ℚ :=
  if pyTruthy (entryCode e) && entryCode e == c then (entryDaily e).getD 0 else 0

/-- The hours one timesheet contributes to a given project code. -/
def tsContrib (c : Prim) (ts : Doc) : ℚ :=
  match Doc.get ts "entries" with
  | some (.arrD es) => (es.map (entryContrib c)).sum
  | _ => 0

/-- An entry the report loop can process: when its project code is truthy,
all five weekday coercions succeed (entries with falsy codes are skipped
before any coercion). -/
def wfEntry (e : FlatDoc) : Prop :=
  pyTruthy (entryCode e) = true → (entryDaily e).isSome = true

/-- A timesheet the report loop can process: an entries array whose
entries are processable. -/
def wfTs (ts : Doc) : Prop :=
  ∃ es, Doc.get ts "entries" = some (.arrD es) ∧ ∀ e ∈ es, wfEntry e

theorem lookupD_addHours (acc : List (Prim × ℚ)) (c p : Prim) (q : ℚ) :
    lookupD (addHours acc c q) p = lookupD acc p + (if c = p then q else 0) := by
  induction acc with
  | nil => by_cases h : c = p <;> simp [addHours, lookupD, h]
  | cons hd rest ih =>
    obtain ⟨c1, h1⟩ := hd
    by_cases hc : c1 = c
    · subst hc
      by_cases hp : c1 = p <;> simp [addHours, lookupD, hp]
    · by_cases hp : c1 = p
      · subst hp
        have : ¬ c = c1 := fun he => hc he.symm
        simp [addHours, lookupD, hc, this]
      · simp [addHours, lookupD, hc, hp, ih]

theorem processEntry_spec (acc : List (Prim × ℚ)) (e : FlatDoc) (hwf : wfEntry e) :
    ∃ acc2, processEntry acc e = some acc2 ∧
      ∀ p, lookupD acc2 p = lookupD acc p + entryContrib p e := by
  by_cases ht : pyTruthy (entryCode e) = true
  · obtain ⟨q, hq⟩ := Option.isSome_iff_exists.mp (hwf ht)
    refine ⟨addHours acc (entryCode e) q, ?_, ?_⟩
    · simp [processEntry, ht, hq]
    · intro p
      rw [lookupD_addHours]
      by_cases hp : entryCode e = p
      · have ht2 := ht
        rw [hp] at ht2
        simp [entryContrib, hp, ht2, hq]
      · simp [entryContrib, ht, hp, hq]
  · rw [Bool.not_eq_true] at ht
    refine ⟨acc, ?_, ?_⟩
    · simp [processEntry, ht]
    · intro p
      simp [entryContrib, ht]

theorem foldEntries_spec (es : List FlatDoc) (hwf : ∀ e ∈ es, wfEntry e) :
    ∀ acc, ∃ acc2, foldOpt processEntry acc es = some acc2 ∧
      ∀ p, lookupD acc2 p = lookupD acc p + (es.map (entryContrib p)).sum := by
  induction es with
  | nil => intro acc; exact ⟨acc, rfl, by simp⟩
  | cons e rest ih =>
    intro acc
    obtain ⟨acc1, h1, hl1⟩ := processEntry_spec acc e (hwf e (by simp))
    obtain ⟨acc2, h2, hl2⟩ := ih (fun x hx => hwf x (by simp [hx])) acc1
    refine ⟨acc2, ?_, ?_⟩
    · simp [foldOpt, h1, h2]
    · intro p
      rw [hl2, hl1]
      simp
      ring

theorem processTs_spec (acc : List (Prim × ℚ)) (ts : Doc) (hwf : wfTs ts) :
    ∃ acc2, processTs acc ts = some acc2 ∧
      ∀ p, lookupD acc2 p = lookupD acc p + tsContrib p ts := by
  obtain ⟨es, hes, hwfe⟩ := hwf
  obtain ⟨acc2, h2, hl⟩ := foldEntries_spec es hwfe acc
  refine ⟨acc2, ?_, ?_⟩
  · simp [processTs, hes, h2]
  · intro p
    rw [hl]
    simp [tsContrib, hes]

theorem foldTs_spec (l : List Doc) (hwf : ∀ ts ∈ l, wfTs ts) :
    ∀ acc, ∃ m, foldOpt processTs acc l = some m ∧
      ∀ p, lookupD m p = lookupD acc p + (l.map (tsContrib p)).sum := by
  induction l with
  | nil => intro acc; exact ⟨acc, rfl, by simp⟩
  | cons ts rest ih =>
    intro acc
    obtain ⟨acc1, h1, hl1⟩ := processTs_spec acc ts (hwf ts (by simp))
    obtain ⟨m, h2, hl2⟩ := ih (fun x hx => hwf x (by simp [hx])) acc1
    refine ⟨m, ?_, ?_⟩
    · simp [foldOpt, h1, h2]
    · intro p
      rw [hl2, hl1]
      simp
      ring

/-- Modelled from the words of the C5 claim, for comparison with the code
(this is the claim's reading, not the source): per approved timesheet, per
entry with a truthy project code, each of the five weekday fields
contributes its numeric value, a missing or non-numeric field contributing
zero. -/
def specDayWords (e : FlatDoc) (k : String) : ℚ :=
  match FlatDoc.get e k with
  | some p => (pyFloat p).getD 0
  | none => 0

/-- The per-entry weekday sum under the claim's words. -/
def specEntryWords (e : FlatDoc) : ℚ :=
  specDayWords e "mon" + specDayWords e "tue" + specDayWords e "wed" +
    specDayWords e "thu" + specDayWords e "fri"

/-- The whole report under the claim's words: total, never failing. -/
def projectHoursWords (st : AppState) : List (Prim × ℚ) :=
  (st.timesheets.filter (fun d => fieldIs d "status" "approved")).foldl
    (fun acc ts =>
      match Doc.get ts "entries" with
      | some (.arrD es) =>
        es.foldl
          (fun acc2 e =>
            if pyTruthy (entryCode e) then addHours acc2 (entryCode e) (specEntryWords e)
            else acc2) acc
      | _ => acc) []

/-- An approved timesheet whose single entry has a non-numeric weekday
string. -/
def c5BadTs : Doc :=
  [("id", vS "t9"), ("user_id", vS "e1"),
   ("entries", .arrD [[("project_code", .pStr "P1"), ("mon", .pStr "abc")]]),
   ("status", vS "approved")]

/-- The sample state with the bad approved timesheet. -/
def c5State : AppState := { sampleState with timesheets := [c5BadTs] }

/-- C5 counterexample: a non-numeric weekday value does not contribute
zero — float() raises and the endpoint fails with 500, while the claim's
words demand the code P1 be reported with zero hours. -/
theorem projectHours_nonNumeric_cex :
    getProjectHours c5State managerTok = .error ⟨500, "Failed to fetch reports"⟩ ∧
      lookupD (projectHoursWords c5State) (.pStr "P1") = 0 := by
  refine ⟨by rfl, ?_⟩
  have h : projectHoursWords c5State = [(Prim.pStr "P1", 0 + 0 + 0 + 0 + 0)] := rfl
  rw [h]
  simp [lookupD]

/-- C5 amended: GET /reports/project-hours sums, per project code, the
five weekday columns of the entries of approved timesheets only — a
missing or falsy value counts as zero and numeric strings are parsed — but
when every coercion succeeds; any non-numeric string makes the whole
endpoint fail with 500 (counterexample above) rather than contribute
zero. -/
theorem getProjectHours_sums (st : AppState) (tok : Token) (mgr : Doc)
    (hrole : requireRole ["admin", "manager"] st tok = .ok mgr)
    (hwf : ∀ ts ∈ st.timesheets.filter (fun d => fieldIs d "status" "approved"), wfTs ts) :
    ∃ m, getProjectHours st tok = .ok m ∧
      ∀ c, lookupD m c =
        ((st.timesheets.filter (fun d => fieldIs d "status" "approved")).map
          (tsContrib c)).sum := by
  obtain ⟨m, hm, hl⟩ := foldTs_spec _ hwf []
  refine ⟨m, ?_, ?_⟩
  · simp [getProjectHours, hrole, hm]
  · intro c
    rw [hl c]
    simp [lookupD]

/-- Witness for C5 amended at the sample state, whose approved timesheet
t1 carries numeric entries. -/
theorem getProjectHours_sums_witness :
    ∃ m, getProjectHours sampleState managerTok = .ok m ∧
      ∀ c, lookupD m c =
        ((sampleState.timesheets.filter (fun d => fieldIs d "status" "approved")).map
          (tsContrib c)).sum := by
  apply getProjectHours_sums sampleState managerTok sampleManager rfl
  intro ts hts
  have hfl : sampleState.timesheets.filter (fun d => fieldIs d "status" "approved") =
      [sampleApprovedTs] := rfl
  rw [hfl] at hts
  simp at hts
  subst hts
  refine ⟨_, rfl, ?_⟩
  intro e he
  simp at he
  subst he
  intro _
  decide

/-- C9: uploading any document (any byte content, filename and content
type) to an existing user and then downloading it at its index (the length
of the user's previous documents array) returns byte-identical content
together with the original filename and content type. -/
theorem upload_download_roundtrip (st : AppState) (tok tok2 : Token)
    (userId : String) (content : List Nat)
    (filename contentType docType now : String)
    (upre upost : List Doc) (u adm w : Doc) (ds : List FlatDoc)
    (hadmin : requireRole ["admin"] st tok = .ok adm)
    (husers : st.users = upre ++ u :: upost)
    (hupre : ∀ x ∈ upre, fieldIs x "id" userId = false)
    (huid : Doc.getStr u "id" = some userId)
    (hdocs : Doc.get u "documents" = some (.arrD ds))
    (hbytes : ∀ b ∈ content, b < 256)
    (hauth : getCurrentUser (uploadUserDocument st tok userId content filename
        contentType docType now).2 tok2 = .ok w) :
    (uploadUserDocument st tok userId content filename contentType docType now).1 =
        .ok filename ∧
      downloadDocument (uploadUserDocument st tok userId content filename
          contentType docType now).2 tok2 "user" userId ds.length =
        .ok (content, contentType, filename) := by
  have hpush : pushDoc u "documents" (uploadEntry content filename contentType docType now) =
      Doc.set u "documents"
        (.arrD (ds ++ [uploadEntry content filename contentType docType now])) := by
    simp [pushDoc, hdocs]
  have hupd : updateFirst st.users (fun d => fieldIs d "id" userId)
      (fun d => pushDoc d "documents" (uploadEntry content filename contentType docType now)) =
      (upre ++ pushDoc u "documents" (uploadEntry content filename contentType docType now)
        :: upost,
        ⟨1, if pushDoc u "documents" (uploadEntry content filename contentType docType now) = u
          then 0 else 1⟩) := by
    rw [husers, updateFirst_append_false _ _ hupre,
      updateFirst_cons_pos _ _ (fieldIs_iff.mpr huid)]
  have hrunU : uploadUserDocument st tok userId content filename contentType docType now =
      (.ok filename,
        { st with
            users :=
              upre ++
                Doc.set u "documents"
                  (.arrD (ds ++ [uploadEntry content filename contentType docType now])) ::
                upost }) := by
    simp [uploadUserDocument, hadmin, hupd, hpush]
  have hfp2 : fieldIs (Doc.set u "documents"
      (.arrD (ds ++ [uploadEntry content filename contentType docType now]))) "id" userId =
      true := by
    apply fieldIs_iff.mpr
    rw [Doc.getStr_set_ne _ _ _ _ (by decide)]
    exact huid
  have hfind2 : findBy (upre ++ Doc.set u "documents"
      (.arrD (ds ++ [uploadEntry content filename contentType docType now])) :: upost)
      "id" userId =
      some (Doc.set u "documents"
        (.arrD (ds ++ [uploadEntry content filename contentType docType now]))) := by
    rw [findBy_append_false _ _ _ hupre, findBy_cons, if_pos hfp2]
  have hget2 : Doc.get (Doc.set u "documents"
      (.arrD (ds ++ [uploadEntry content filename contentType docType now]))) "documents" =
      some (.arrD (ds ++ [uploadEntry content filename contentType docType now])) :=
    Doc.get_set_self _ _ _
  rw [hrunU] at hauth ⊢
  refine ⟨rfl, ?_⟩
  have hlen : ¬ (ds ++ [uploadEntry content filename contentType docType now]).length ≤
      ds.length := by
    simp
  have hgetD : (ds ++ [uploadEntry content filename contentType docType now]).getD
      ds.length [] = uploadEntry content filename contentType docType now :=
    getD_concat_length _ _ _
  have hsome : (ds ++ [uploadEntry content filename contentType docType now])[ds.length]? =
      some (uploadEntry content filename contentType docType now) :=
    List.getElem?_concat_length _ _
  simp [downloadDocument, hauth, hfind2, hget2, hlen, hgetD, hsome]
  simp [uploadEntry, FlatDoc.get, b64_roundtrip content hbytes]

/-- Witness for C9: a six-byte file uploaded by the admin onto the sample
employee and downloaded back by the employee. -/
theorem upload_download_roundtrip_witness :
    (uploadUserDocument sampleState adminTok "e1" [0, 1, 2, 250, 255, 77]
        "f.bin" "application/bin" "contract" "2025-03-01").1 = .ok "f.bin" ∧
      downloadDocument (uploadUserDocument sampleState adminTok "e1"
          [0, 1, 2, 250, 255, 77] "f.bin" "application/bin" "contract"
          "2025-03-01").2 employeeTok "user" "e1"
          ([] : List FlatDoc).length =
        .ok ([0, 1, 2, 250, 255, 77], "application/bin", "f.bin") :=
  upload_download_roundtrip sampleState adminTok employeeTok "e1"
    [0, 1, 2, 250, 255, 77] "f.bin" "application/bin" "contract" "2025-03-01"
    [sampleAdmin, sampleManager] [] sampleEmployee sampleAdmin
    (Doc.set sampleEmployee "documents"
      (.arrD [uploadEntry [0, 1, 2, 250, 255, 77] "f.bin" "application/bin"
        "contract" "2025-03-01"]))
    [] rfl rfl (by decide) (by decide) (by decide) (by decide) (by rfl)

/-- Witness for C6: the sample manager sends a payload trying to set both
role and leave_balance on the employee; only leave_balance lands. -/
theorem updateUser_manager_only_balance_witness :
    ∃ u2, (updateUser sampleState managerTok "e1"
        [("role", vS "admin"), ("leave_balance", vN 7)]).2.users =
        [sampleAdmin, sampleManager] ++ u2 :: [] ∧
      (∀ k, k ≠ "leave_balance" → Doc.get u2 k = Doc.get sampleEmployee k) ∧
      (∀ v, "password" ∉ ([("role", vS "admin"), ("leave_balance", vN 7)] :
            List (String × Value)).map Prod.fst →
        (([("role", vS "admin"), ("leave_balance", vN 7)] :
            List (String × Value)).map Prod.fst).Nodup →
        ("leave_balance", v) ∈ [("role", vS "admin"), ("leave_balance", vN 7)] →
        Doc.get u2 "leave_balance" = some v) :=
  updateUser_manager_only_balance sampleState managerTok "e1"
    [("role", vS "admin"), ("leave_balance", vN 7)] [sampleAdmin, sampleManager] []
    sampleEmployee sampleManager rfl rfl rfl (by decide) (by decide)

/-- Witness for C3: the sample employee marks their own draft timesheet t2
approved through the plain PUT. -/
theorem updateTimesheet_draft_verbatim_witness :
    (∃ r, (updateTimesheet sampleState employeeTok "t2" [("status", vS "approved")]).1 =
      .ok r) ∧
      Doc.setMany sampleDraftTs [("status", vS "approved")] ∈
        (updateTimesheet sampleState employeeTok "t2" [("status", vS "approved")]).2.timesheets ∧
      ∀ k v, (k, v) ∈ [("status", vS "approved")] →
        Doc.get (Doc.setMany sampleDraftTs [("status", vS "approved")]) k = some v :=
  updateTimesheet_draft_verbatim sampleState employeeTok "t2" [("status", vS "approved")]
    sampleEmployee sampleDraftTs rfl rfl rfl rfl (by decide) (by decide)

end TM
